import Mathlib

/-!
Verification of the webclaw scaffolding CLI (the node script in
src/apps/webclaw/src/screens/chat/hooks/use-session-shortcuts.ts, lines
41-280): the init state machine (target resolution, non-empty/force
semantics, self-overwrite refusal, clone-then-materialize), the
package-manager probe, project detection, script forwarding, and the
argv parsing of main.

The filesystem is modelled as a finite tree of named entries.  A path in
the CLI denotes a node of this tree; the init flow only ever reads and
writes the subtree at the resolved target directory, so initProject is
embedded as a function of that subtree (None when the path does not
exist).  External processes (git clone, package managers) are modelled
as primitives: a clone deposits a template tree (the template of a
successful shallow clone contains a top-level .git directory), and a
spawned child is summarised by its SpawnResult, exactly the fields
runCommand inspects.  A target path that denotes a regular file makes
readdirSync throw in the source and is outside this model: the target
state is None (missing) or a directory entry list.
-/

set_option autoImplicit false

/-- A filesystem node: a regular file or a directory of named children.
File contents never influence the CLI's control flow, so files carry no
data. -/
inductive Fs where
  | file : Fs
  | dir (entries : List (String × Fs)) : Fs
deriving Repr

/-- The children of a directory, in readdirSync order. -/
abbrev Entries := List (String × Fs)

/-- Lookup of a name among a directory's entries, as fs.existsSync on the
joined path (true for files and directories alike). -/
def hasEntry : Entries → String → Bool
  | [], _ => false
  | e :: rest, n => if e.1 = n then true else hasEntry rest n

/-- The child of a directory under a given name, when present. -/
def getEntry : Entries → String → Option Fs
  | [], _ => none
  | e :: rest, n => if e.1 = n then some e.2 else getEntry rest n

/-- Writing a child: replace the entry of that name if present, append
otherwise (how a copy or mkdir materialises a child on a real fs). -/
def setEntry : Entries → String → Fs → Entries
  | [], n, v => [(n, v)]
  | e :: rest, n, v => if e.1 = n then (n, v) :: rest else e :: setEntry rest n v

/-- Source isDirEmpty, lines 152-158: a missing directory is empty; an
existing one is empty iff readdirSync minus .DS_Store and .git is empty. -/
def isDirEmptyEntries (es : Entries) : Bool :=
  ((es.map Prod.fst).filter (fun f => f ≠ ".DS_Store" && f ≠ ".git")).isEmpty

/-- Source isDirEmpty on a possibly missing directory (None = the path
does not exist, existsSync false). -/
def isDirEmpty : Option Entries → Bool
  | none => true
  | some es => isDirEmptyEntries es

/-- Source detectPackageManager, lines 83-87: lockfile presence with
precedence pnpm over yarn over the npm fallback. -/
def detectPackageManager (es : Entries) : String :=
  if hasEntry es "pnpm-lock.yaml" then "pnpm"
  else if hasEntry es "yarn.lock" then "yarn"
  else "npm"

/-- The entry names copyDir skips, source lines 135-141 (the seven
`continue` guards, in order). -/
def excludedNames : List String :=
  ["node_modules", ".git", ".env.local", ".openclaw", ".webclaw", ".tanstack", ".DS_Store"]

/-- The existing subtree the recursive copy descends into for a child
name: its entries when a directory of that name already exists at the
destination, the fresh directory ensureDir creates otherwise. -/
def dstChild (dst : Entries) (n : String) : Entries :=
  match getEntry dst n with
  | some (Fs.dir des) => des
  | _ => []

/-- Source copyDir, lines 131-150: ensureDir the destination, then for
each source entry not in the exclusion set, recurse on directories and
copy files (overwriting an existing destination entry of that name). -/
def copyDir (src dst : Entries) : Entries :=
  match src with
  | [] => dst
  | (n, v) :: rest =>
    if n ∈ excludedNames then copyDir rest dst
    else
      match v with
      | Fs.file => copyDir rest (setEntry dst n Fs.file)
      | Fs.dir ses => copyDir rest (setEntry dst n (Fs.dir (copyDir ses (dstChild dst n))))
termination_by sizeOf src
decreasing_by all_goals simp_wf <;> omega

/-- Effect of `git clone URL target` on an existing empty target
directory: the clone's tree is deposited entry by entry alongside
whatever the directory held. -/
def mergeEntries (dst src : Entries) : Entries :=
  match src with
  | [] => dst
  | (n, v) :: rest => mergeEntries (setEntry dst n v) rest

/-- Whether an entry of the given name occurs anywhere in a directory
tree, at the top level or nested at any depth. -/
def deepHasEntries (n : String) : Entries → Bool
  | [] => false
  | (m, Fs.file) :: rest => (m = n) || deepHasEntries n rest
  | (m, Fs.dir es) :: rest => (m = n) || deepHasEntries n es || deepHasEntries n rest
termination_by es => sizeOf es
decreasing_by all_goals simp_wf <;> omega

/-- The two messages initProject writes to standard error before
exiting 1 (source lines 171-173 and 178-180). -/
inductive InitMsg where
  | notEmpty
  | refusingCurrentDir
deriving DecidableEq, Repr

/-- Observable outcome of one initProject invocation: the process exit
code, the final state of the target directory's entries, whether a
clone ran (directly or into the staging directory), whether the staged
filtered copy ran, which top-level entries the force-clear removed, and
what was written to standard error. -/
structure InitOutcome where
  exit : Nat
  target : Entries
  didClone : Bool
  didCopy : Bool
  removed : List String
  stderr : List InitMsg
deriving Repr

/-- Source initProject, lines 164-208, as a function of the subtree at
the resolved target path (none when the path does not exist), of
whether that path equals process.cwd(), of the force flag, and of the
template tree a successful clone produces.  Steps in source order:
ensureDir; the no-force non-empty refusal; the force-into-cwd refusal;
the force-clear of every top-level entry except .git; materialization
when .git is absent and the directory is empty (direct clone for other
directories, staged clone plus filtered copy for the invocation
directory); success banner and normal exit 0.  External clone and copy
primitives are assumed to succeed; a failing child is the subject of
runCommand below. -/
def initProject (st : Option Entries) (isCurrentDir force : Bool) (template : Entries) :
    InitOutcome :=
  let st1 := st.getD []
  if !force && !isDirEmptyEntries st1 then
    ⟨1, st1, false, false, [], [InitMsg.notEmpty]⟩
  else if force && !isDirEmptyEntries st1 && isCurrentDir then
    ⟨1, st1, false, false, [], [InitMsg.refusingCurrentDir]⟩
  else
    let doClear := force && !isDirEmptyEntries st1 && !isCurrentDir
    let removed := if doClear then (st1.map Prod.fst).filter (fun n => n ≠ ".git") else []
    let st2 := if doClear then st1.filter (fun e => e.1 = ".git") else st1
    if !hasEntry st2 ".git" && isDirEmptyEntries st2 then
      if !isCurrentDir then
        ⟨0, mergeEntries st2 template, true, false, removed, []⟩
      else
        ⟨0, copyDir template st2, true, true, removed, []⟩
    else
      ⟨0, st2, false, false, removed, []⟩

/-- The argv test arg.startsWith of a dash, at the character level (the
string functions of the runtime, expressed over the character list so
the model evaluates). -/
def startsWithDash (s : String) : Bool :=
  match s.data with
  | [] => false
  | c :: _ => c = '-'

/-- Whether a path string is absolute, that is, starts with the
separator character. -/
def startsWithSlash (s : String) : Bool :=
  match s.data with
  | [] => false
  | c :: _ => c = '/'

/-- Splitting a character list on the path separator, the splitOn of
the runtime at the character level: a path segment is a maximal run
between separators (possibly empty). -/
def splitSeg : List Char → List Char → List (List Char)
  | acc, [] => [acc.reverse]
  | acc, c :: rest => if c = '/' then acc.reverse :: splitSeg [] rest else splitSeg (c :: acc) rest

/-- Normalisation core of path.resolve: fold raw segments onto a
reversed path, dropping empty and dot segments and letting dot-dot pop
(never above the root). -/
def normSegs : List (List Char) → List (List Char) → List (List Char)
  | acc, [] => acc
  | acc, s :: rest =>
    if s = [] ∨ s = ['.'] then normSegs acc rest
    else if s = ['.', '.'] then normSegs acc.tail rest
    else normSegs (s :: acc) rest

/-- Source line 165, path.resolve(process.cwd(), rawTarget ?? '.'),
over paths as absolute lists of character-list segments: a missing
argument means the current directory; an argument starting with the
separator restarts from the root, otherwise it extends cwd; empty, dot
and dot-dot segments are normalised away. -/
def resolvePath (cwd : List (List Char)) (raw : Option String) : List (List Char) :=
  let r := raw.getD "."
  if startsWithSlash r then (normSegs [] (splitSeg [] r.data)).reverse
  else (normSegs cwd.reverse (splitSeg [] r.data)).reverse

/-- Source lines 234-236: the first argv token not starting with a dash
is the command. -/
def parseCommand (args : List String) : Option String :=
  args.find? (fun a => !startsWithDash a)

/-- Scan of source lines 249-253: walking the argv with each token's
predecessor, the target is the first token that does not start with a
dash and whose predecessor is the literal init token. -/
def findInitTarget : Option String → List String → Option String
  | _, [] => none
  | prev, a :: rest =>
    if !startsWithDash a && prev = some "init" then some a
    else findInitTarget (some a) rest

/-- Source lines 249-253: the positional target of the init command
(the first element has no predecessor). -/
def parseInitTarget (args : List String) : Option String :=
  findInitTarget none args

/-- InitProject as invoked by main: the target subtree is taken at the
resolved path, and the invocation-directory test is the equality of the
resolved path with cwd (source line 167). -/
def initInvocation (cwd : List (List Char)) (raw : Option String) (force : Bool)
    (st : Option Entries) (template : Entries) : InitOutcome :=
  initProject st (decide (resolvePath cwd raw = cwd)) force template

/-- The fields of a spawnSync result that runCommand inspects: whether
spawning itself errored, and the child's exit status (none when the
child was killed by a signal). -/
structure SpawnResult where
  error : Bool
  status : Option Int
deriving DecidableEq, Repr

/-- What runCommand does with a spawn result: rethrow a spawn error,
exit the whole process with a non-zero child status, or return. -/
inductive RunOutcome where
  | threw
  | exited (code : Int)
  | ok
deriving DecidableEq, Repr

/-- Source runCommand, lines 69-81: throw on a spawn error, call
process.exit(status) when the status is a number other than zero,
otherwise fall through. -/
def runCommand (r : SpawnResult) : RunOutcome :=
  if r.error then RunOutcome.threw
  else
    match r.status with
    | some n => if n ≠ 0 then RunOutcome.exited n else RunOutcome.ok
    | none => RunOutcome.ok

/-- Existence of a nested path below a directory: every intermediate
segment must be a directory, the final segment an entry of any kind
(fs.existsSync of the joined path). -/
def pathExists (es : Entries) : List String → Bool
  | [] => true
  | [n] => hasEntry es n
  | n :: rest =>
    match getEntry es n with
    | some (Fs.dir sub) => pathExists sub rest
    | _ => false

/-- The two project layouts of source detectProjectRoot. -/
inductive ProjectLayout where
  | monorepo
  | single
deriving DecidableEq, Repr

/-- Source detectProjectRoot, lines 89-100: a nested application
manifest at apps/webclaw/package.json wins, a manifest at cwd itself is
a single package, otherwise no project. -/
def detectProjectRoot (cwd : Entries) : Option ProjectLayout :=
  if pathExists cwd ["apps", "webclaw", "package.json"] then some ProjectLayout.monorepo
  else if hasEntry cwd "package.json" then some ProjectLayout.single
  else none

/-- Observable outcome of runProjectScript: the process exit code when
it terminated (none when a spawn error propagated as an exception), the
child processes spawned as command and argument list, and whether the
no-project diagnostic was written to standard error. -/
structure ScriptOutcome where
  exit : Option Int
  spawned : List (String × List String)
  stderrNoProject : Bool
deriving DecidableEq, Repr

/-- Source runProjectScript, lines 102-123: fail fast with the
diagnostic and exit 1 when no project is detected; otherwise spawn the
detected package manager (pnpm with its workspace flag in a monorepo,
a plain run script otherwise) and let runCommand translate the child's
result into the process outcome. -/
def runProjectScript (cwd : Entries) (script : String) (childRes : SpawnResult) :
    ScriptOutcome :=
  match detectProjectRoot cwd with
  | none => ⟨some 1, [], true⟩
  | some layout =>
    let pm := detectPackageManager cwd
    let invocation :=
      match layout with
      | ProjectLayout.monorepo =>
        if pm = "pnpm" then ("pnpm", ["-C", "apps/webclaw", script])
        else (pm, ["run", script])
      | ProjectLayout.single => (pm, ["run", script])
    match runCommand childRes with
    | RunOutcome.threw => ⟨none, [invocation], false⟩
    | RunOutcome.exited n => ⟨some n, [invocation], false⟩
    | RunOutcome.ok => ⟨some 0, [invocation], false⟩

/-- Whether an entry of the given name occurs in a single node. -/
def deepHasFs (n : String) : Fs → Bool
  | Fs.file => false
  | Fs.dir es => deepHasEntries n es

theorem deepHasEntries_cons (n m : String) (v : Fs) (rest : Entries) :
    deepHasEntries n ((m, v) :: rest) =
      ((m = n) || deepHasFs n v || deepHasEntries n rest) := by
  cases v <;> simp [deepHasEntries, deepHasFs]

/-- Resolving a missing target argument yields the current directory
itself. -/
theorem resolvePath_none (cwd : List (List Char)) : resolvePath cwd none = cwd := by
  have hd : (".".data) = ['.'] := by decide
  simp [resolvePath, startsWithSlash, hd, splitSeg, normSegs]

theorem hasEntry_filter_git (es : Entries) (h : hasEntry es ".git" = true) :
    hasEntry (es.filter (fun e => e.1 = ".git")) ".git" = true := by
  induction es with
  | nil => simp [hasEntry] at h
  | cons e rest ih =>
    by_cases hg : e.1 = ".git"
    · simp [List.filter, hg, hasEntry]
    · simp [hasEntry, hg] at h
      simp [List.filter, hg, ih h]

theorem filter_git_of_not_hasEntry (es : Entries) (h : hasEntry es ".git" = false) :
    es.filter (fun e => e.1 = ".git") = [] := by
  induction es with
  | nil => simp
  | cons e rest ih =>
    by_cases hg : e.1 = ".git"
    · simp [hasEntry, hg] at h
    · simp [hasEntry, hg] at h
      simp [List.filter, hg, ih h]

/-- C1: for every invocation of init with the force flag where the
resolved target directory is non-empty and equals the current working
directory, init refuses and exits with code 1, performing no
materialization (no clone, no staged copy) and no removal of the
target's contents, regardless of any other state or flag. -/
theorem init_force_nonempty_cwd_refuses (cwd : List (List Char)) (raw : Option String)
    (es template : Entries) (hres : resolvePath cwd raw = cwd)
    (hne : isDirEmptyEntries es = false) :
    initInvocation cwd raw true (some es) template =
      ⟨1, es, false, false, [], [InitMsg.refusingCurrentDir]⟩ := by
  simp [initInvocation, hres, initProject, hne]

theorem init_force_nonempty_cwd_refuses_witness :
    initInvocation [['h']] none true (some [("a", Fs.file)]) [] =
      ⟨1, [("a", Fs.file)], false, false, [], [InitMsg.refusingCurrentDir]⟩ :=
  init_force_nonempty_cwd_refuses [['h']] none [("a", Fs.file)] [] (by decide) (by decide)

/-- C2: for every invocation of init without the force flag against an
existing non-empty target directory (emptiness ignoring .git and
.DS_Store), init reports the not-empty message on standard error, exits
with code 1, and performs zero filesystem writes to the target
directory, whose entries are returned unchanged. -/
theorem init_nonempty_without_force_refuses (es template : Entries) (isCurrentDir : Bool)
    (hne : isDirEmptyEntries es = false) :
    initProject (some es) isCurrentDir false template =
      ⟨1, es, false, false, [], [InitMsg.notEmpty]⟩ := by
  simp [initProject, hne]

theorem init_nonempty_without_force_refuses_witness :
    initProject (some [("a", Fs.file)]) false false [] =
      ⟨1, [("a", Fs.file)], false, false, [], [InitMsg.notEmpty]⟩ :=
  init_nonempty_without_force_refuses [("a", Fs.file)] [] false (by decide)

/-- C3: for every invocation of init with the force flag where the
target is non-empty and resolves away from the current working
directory, init removes every top-level entry except .git, exits 0 with
no refusal on standard error, and proceeds to the materialization step
(when no .git was present the clone runs). -/
theorem init_force_other_dir_clears_then_proceeds (cwd : List (List Char))
    (raw : Option String) (es template : Entries)
    (hres : resolvePath cwd raw ≠ cwd) (hne : isDirEmptyEntries es = false) :
    (initInvocation cwd raw true (some es) template).removed
        = (es.map Prod.fst).filter (fun n => n ≠ ".git") ∧
    (initInvocation cwd raw true (some es) template).exit = 0 ∧
    (initInvocation cwd raw true (some es) template).stderr = [] ∧
    (hasEntry es ".git" = false →
      (initInvocation cwd raw true (some es) template).didClone = true) := by
  have hd : (decide (resolvePath cwd raw = cwd)) = false := decide_eq_false hres
  cases hg : hasEntry es ".git" with
  | false =>
    have h2 : es.filter (fun e => e.1 = ".git") = [] := filter_git_of_not_hasEntry es hg
    simp only [initInvocation, hd, initProject, Option.getD_some, hne, Bool.not_true,
      Bool.not_false, Bool.false_and, Bool.and_false, Bool.true_and, Bool.and_true]
    simp [h2, hasEntry, isDirEmptyEntries]
  | true =>
    have h2 := hasEntry_filter_git es hg
    simp only [initInvocation, hd, initProject, Option.getD_some, hne, Bool.not_true,
      Bool.not_false, Bool.false_and, Bool.and_false, Bool.true_and, Bool.and_true]
    simp [h2, hg]

theorem init_force_other_dir_clears_then_proceeds_witness :
    (initInvocation [['h']] (some "proj") true
        (some [("a", Fs.file), (".git", Fs.dir [])]) [("pkg", Fs.file)]).removed = ["a"] ∧
    (initInvocation [['h']] (some "proj") true
        (some [("a", Fs.file), (".git", Fs.dir [])]) [("pkg", Fs.file)]).exit = 0 ∧
    (initInvocation [['h']] (some "proj") true
        (some [("a", Fs.file), (".git", Fs.dir [])]) [("pkg", Fs.file)]).stderr = [] ∧
    (hasEntry [("a", Fs.file), (".git", Fs.dir [])] ".git" = false →
      (initInvocation [['h']] (some "proj") true
        (some [("a", Fs.file), (".git", Fs.dir [])]) [("pkg", Fs.file)]).didClone = true) := by
  have h := init_force_other_dir_clears_then_proceeds [['h']] (some "proj")
    [("a", Fs.file), (".git", Fs.dir [])] [("pkg", Fs.file)] (by decide) (by decide)
  simpa using h

/-- C4: a directory that does not exist is always classified empty, and
for an existing directory the classification ignores exactly the
entries named .git and .DS_Store: it is empty precisely when every
entry is one of those two names. -/
theorem isDirEmpty_missing_and_ignores_metadata :
    isDirEmpty none = true ∧
    ∀ es : Entries, (isDirEmptyEntries es = true ↔
      ∀ e ∈ es, e.1 = ".git" ∨ e.1 = ".DS_Store") := by
  refine ⟨rfl, ?_⟩
  intro es
  simp only [isDirEmptyEntries, List.isEmpty_iff, List.filter_eq_nil_iff, List.mem_map]
  constructor
  · intro h e he
    have := h e.1 ⟨e, he, rfl⟩
    simp only [Bool.and_eq_true, decide_eq_true_eq, ne_eq] at this
    tauto
  · intro h f hf
    obtain ⟨e, he, rfl⟩ := hf
    have := h e he
    simp only [Bool.and_eq_true, decide_eq_true_eq, ne_eq] at *
    tauto

/-- C6: detectPackageManager is total with the three package-manager
values, and follows lockfile precedence: pnpm when the pnpm lockfile is
present, yarn when only the yarn lockfile is present, npm otherwise. -/
theorem detectPackageManager_lockfile_precedence (es : Entries) :
    (detectPackageManager es = "pnpm" ∨ detectPackageManager es = "yarn" ∨
      detectPackageManager es = "npm") ∧
    (hasEntry es "pnpm-lock.yaml" = true → detectPackageManager es = "pnpm") ∧
    (hasEntry es "pnpm-lock.yaml" = false → hasEntry es "yarn.lock" = true →
      detectPackageManager es = "yarn") ∧
    (hasEntry es "pnpm-lock.yaml" = false → hasEntry es "yarn.lock" = false →
      detectPackageManager es = "npm") := by
  cases hp : hasEntry es "pnpm-lock.yaml" <;> cases hy : hasEntry es "yarn.lock" <;>
    simp [detectPackageManager, hp, hy]

theorem detectPackageManager_lockfile_precedence_witness :
    detectPackageManager [("yarn.lock", Fs.file)] = "yarn" :=
  (detectPackageManager_lockfile_precedence [("yarn.lock", Fs.file)]).2.2.1
    (by decide) (by decide)

/-- C7: forwarding any subcommand in a directory where project
detection finds no manifest writes the no-project diagnostic to
standard error and exits 1 without spawning any package manager
process, whatever the child result would have been. -/
theorem forward_without_project_fails_fast (cwd : Entries) (script : String)
    (childRes : SpawnResult) (h : detectProjectRoot cwd = none) :
    runProjectScript cwd script childRes = ⟨some 1, [], true⟩ := by
  simp [runProjectScript, h]

theorem forward_without_project_fails_fast_witness :
    runProjectScript [] "test" ⟨false, some 0⟩ = ⟨some 1, [], true⟩ :=
  forward_without_project_fails_fast [] "test" ⟨false, some 0⟩ (by decide)

/-- C8: a forwarded child process exiting with a non-zero status makes
runCommand call the process exit with that same status, and through
runProjectScript the CLI's own exit code is exactly the child's. -/
theorem runCommand_propagates_child_exit (n : Int) (hn : n ≠ 0) :
    runCommand ⟨false, some n⟩ = RunOutcome.exited n ∧
    ∀ (cwd : Entries) (script : String), detectProjectRoot cwd ≠ none →
      (runProjectScript cwd script ⟨false, some n⟩).exit = some n := by
  have h1 : runCommand ⟨false, some n⟩ = RunOutcome.exited n := by simp [runCommand, hn]
  refine ⟨h1, ?_⟩
  intro cwd script h
  cases hd : detectProjectRoot cwd with
  | none => exact absurd hd h
  | some layout => cases layout <;> simp [runProjectScript, hd, h1]

theorem runCommand_propagates_child_exit_witness :
    runCommand ⟨false, some 3⟩ = RunOutcome.exited 3 ∧
    (runProjectScript [("package.json", Fs.file)] "test" ⟨false, some 3⟩).exit = some 3 :=
  ⟨(runCommand_propagates_child_exit 3 (by decide)).1,
    (runCommand_propagates_child_exit 3 (by decide)).2
      [("package.json", Fs.file)] "test" (by decide)⟩

/-- C5 counterexample: a first init of a fresh directory away from cwd
deposits the clone (exit 0), and the resulting directory contains .git
together with the project files; a second run with the same arguments
exits 1, not 0, because the provisioned directory is non-empty once
.git is ignored and force is absent. -/
theorem init_git_rerun_counterexample :
    (initProject (some []) false false [(".git", Fs.dir []), ("app", Fs.file)]).exit = 0 ∧
    (initProject (some []) false false [(".git", Fs.dir []), ("app", Fs.file)]).target
      = [(".git", Fs.dir []), ("app", Fs.file)] ∧
    (initProject (some [(".git", Fs.dir []), ("app", Fs.file)]) false false
      [(".git", Fs.dir []), ("app", Fs.file)]).exit = 1 ∧
    (initProject (some [(".git", Fs.dir []), ("app", Fs.file)]) false false
      [(".git", Fs.dir []), ("app", Fs.file)]).exit ≠ 0 :=
  ⟨rfl, rfl, rfl, by decide⟩

/-- C5 amended: re-running init against a directory that already
contains .git never materializes (no clone and no staged copy), on
every path through the guards; the run exits 0 exactly when the safety
guards pass, that is, when the directory is empty ignoring .git and
.DS_Store, or force is given and the target is not the invocation
directory; otherwise it exits 1. -/
theorem init_with_git_never_materializes (st : Option Entries) (isCurrentDir force : Bool)
    (template : Entries) (h : hasEntry (st.getD []) ".git" = true) :
    (initProject st isCurrentDir force template).didClone = false ∧
    (initProject st isCurrentDir force template).didCopy = false ∧
    ((initProject st isCurrentDir force template).exit = 0 ↔
      (isDirEmptyEntries (st.getD []) = true ∨
        (force = true ∧ isCurrentDir = false))) := by
  have h2 := hasEntry_filter_git (st.getD []) h
  cases hemp : isDirEmptyEntries (st.getD []) <;> cases force <;> cases isCurrentDir <;>
    simp only [initProject, hemp, h, h2, Bool.not_true, Bool.not_false, Bool.false_and,
      Bool.and_false, Bool.true_and, Bool.and_true] <;>
    simp [h2, h, hemp]

theorem init_with_git_never_materializes_witness :
    (initProject (some [(".git", Fs.dir []), ("app", Fs.file)]) false true []).didClone
        = false ∧
    (initProject (some [(".git", Fs.dir []), ("app", Fs.file)]) false true []).didCopy
        = false ∧
    ((initProject (some [(".git", Fs.dir []), ("app", Fs.file)]) false true []).exit = 0 ↔
      (isDirEmptyEntries ((some [(".git", Fs.dir []), ("app", Fs.file)]).getD [])
          = true ∨ (true = true ∧ false = false))) :=
  init_with_git_never_materializes
    (some [(".git", Fs.dir []), ("app", Fs.file)]) false true [] (by decide)

theorem startsWithDash_ne_init (f : String) (h : startsWithDash f = true) : f ≠ "init" := by
  intro heq
  subst heq
  exact absurd h (by decide)

theorem findInitTarget_skips_flags (l : List String) :
    ∀ (prev : Option String) (dir : String), (∀ f ∈ l, startsWithDash f = true) →
      prev ≠ some "init" → findInitTarget prev (l ++ [dir]) = none := by
  induction l with
  | nil =>
    intro prev dir _ hprev
    simp [findInitTarget, hprev]
  | cons f rest ih =>
    intro prev dir hl hprev
    have hf : startsWithDash f = true := hl f (by simp)
    have hstep : findInitTarget prev ((f :: rest) ++ [dir])
        = findInitTarget (some f) (rest ++ [dir]) := by
      simp [findInitTarget, hf]
    rw [hstep]
    refine ih (some f) dir (fun g hg => hl g (by simp [hg])) ?_
    intro hcontra
    injection hcontra with h'
    exact startsWithDash_ne_init f hf h'

/-- C9: when at least one flag token sits between the init command and
the directory argument, the positional target is not recognized (it is
only recognized immediately after the init token): the command still
parses as init, the parsed target is none, and the missing target
resolves to the current working directory, so init runs against cwd
instead of the named directory. -/
theorem init_flag_swallows_target (flags : List String) (dir : String)
    (cwd : List (List Char)) (hne : flags ≠ [])
    (hf : ∀ f ∈ flags, startsWithDash f = true) (hd : startsWithDash dir = false) :
    parseCommand ("init" :: flags ++ [dir]) = some "init" ∧
    parseInitTarget ("init" :: flags ++ [dir]) = none ∧
    resolvePath cwd (parseInitTarget ("init" :: flags ++ [dir])) = cwd := by
  have hinit : startsWithDash "init" = false := by decide
  have hcmd : parseCommand ("init" :: flags ++ [dir]) = some "init" := by
    simp [parseCommand, List.find?, hinit]
  obtain ⟨f0, rest, rfl⟩ : ∃ f0 rest, flags = f0 :: rest := by
    cases flags with
    | nil => exact absurd rfl hne
    | cons a b => exact ⟨a, b, rfl⟩
  have h0 : startsWithDash f0 = true := hf f0 (by simp)
  have htar : parseInitTarget ("init" :: (f0 :: rest) ++ [dir]) = none := by
    have hstep : parseInitTarget ("init" :: (f0 :: rest) ++ [dir])
        = findInitTarget (some f0) (rest ++ [dir]) := by
      simp [parseInitTarget, findInitTarget, hinit, h0]
    rw [hstep]
    refine findInitTarget_skips_flags rest (some f0) dir
      (fun g hg => hf g (by simp [hg])) ?_
    intro hcontra
    injection hcontra with h'
    exact startsWithDash_ne_init f0 h0 h'
  exact ⟨hcmd, htar, by rw [htar]; exact resolvePath_none cwd⟩

theorem init_flag_swallows_target_witness :
    parseCommand ["init", "--force", "mydir"] = some "init" ∧
    parseInitTarget ["init", "--force", "mydir"] = none ∧
    resolvePath [['h'], ['u']] (parseInitTarget ["init", "--force", "mydir"])
      = [['h'], ['u']] :=
  init_flag_swallows_target ["--force"] "mydir" [['h'], ['u']]
    (by decide) (by decide) (by decide)

theorem deepHas_setEntry_false (n m : String) (v : Fs) (es : Entries)
    (hes : deepHasEntries n es = false) (hnm : m ≠ n) (hv : deepHasFs n v = false) :
    deepHasEntries n (setEntry es m v) = false := by
  induction es with
  | nil =>
    simp [setEntry, deepHasEntries_cons, deepHasEntries, hnm, hv]
  | cons e rest ih =>
    rcases e with ⟨em, ev⟩
    rw [deepHasEntries_cons] at hes
    simp only [Bool.or_eq_false_iff, decide_eq_false_iff_not] at hes
    obtain ⟨⟨hem, hev⟩, hrest⟩ := hes
    by_cases heq : em = m
    · simp [setEntry, heq, deepHasEntries_cons, hnm, hv, hrest]
    · have := ih hrest
      simp [setEntry, heq, deepHasEntries_cons, hem, hev, this]

theorem deepHas_dstChild_false (n : String) (dst : Entries) (m : String)
    (h : deepHasEntries n dst = false) : deepHasEntries n (dstChild dst m) = false := by
  induction dst with
  | nil => simp [dstChild, getEntry, deepHasEntries]
  | cons e rest ih =>
    rcases e with ⟨em, ev⟩
    rw [deepHasEntries_cons] at h
    simp only [Bool.or_eq_false_iff, decide_eq_false_iff_not] at h
    obtain ⟨⟨hem, hev⟩, hrest⟩ := h
    by_cases heq : em = m
    · cases ev with
      | file => simp [dstChild, getEntry, heq, deepHasEntries]
      | dir des =>
        simp only [deepHasFs] at hev
        simp [dstChild, getEntry, heq, hev]
    · have := ih hrest
      simpa [dstChild, getEntry, heq] using this

theorem copyDir_deepHas_false (n : String) (hn : n ∈ excludedNames) (src dst : Entries)
    (hdst : deepHasEntries n dst = false) :
    deepHasEntries n (copyDir src dst) = false := by
  induction src, dst using copyDir.induct with
  | case1 dst =>
    rw [copyDir.eq_def]
    exact hdst
  | case2 dst m v rest hm ih =>
    rw [copyDir.eq_def]
    dsimp only
    rw [if_pos hm]
    exact ih hdst
  | case3 dst m rest hm ih =>
    rw [copyDir.eq_def]
    dsimp only
    rw [if_neg hm]
    refine ih (deepHas_setEntry_false n m Fs.file dst hdst ?_ rfl)
    intro heq
    exact hm (heq ▸ hn)
  | case4 dst m rest hm ses ihInner ihRest =>
    rw [copyDir.eq_def]
    dsimp only
    rw [if_neg hm]
    have hchild := deepHas_dstChild_false n dst m hdst
    have hinner := ihInner hchild
    refine ihRest (deepHas_setEntry_false n m _ dst hdst ?_ ?_)
    · intro heq
      exact hm (heq ▸ hn)
    · simpa [deepHasFs] using hinner

theorem hasEntry_setEntry_self (es : Entries) (n : String) (v : Fs) :
    hasEntry (setEntry es n v) n = true := by
  induction es with
  | nil => simp [setEntry, hasEntry]
  | cons e rest ih =>
    by_cases heq : e.1 = n
    · simp [setEntry, heq, hasEntry]
    · simp [setEntry, heq, hasEntry, ih]

theorem hasEntry_setEntry_other (es : Entries) (m n : String) (v : Fs)
    (h : hasEntry es m = true) : hasEntry (setEntry es n v) m = true := by
  induction es with
  | nil => simp [hasEntry] at h
  | cons e rest ih =>
    by_cases heq : e.1 = n
    · by_cases hnm : n = m
      · simp [setEntry, heq, hasEntry, hnm]
      · have hem : ¬e.1 = m := fun hh => hnm (heq.symm.trans hh)
        simp [hasEntry, hem] at h
        simp [setEntry, heq, hasEntry, hnm, h]
    · by_cases hem : e.1 = m
      · have hmn : ¬m = n := fun hh => heq (hem.trans hh)
        simp [setEntry, heq, hasEntry, hem, hmn]
      · simp [hasEntry, hem] at h
        simp [setEntry, heq, hasEntry, hem, ih h]

theorem mergeEntries_keeps (src dst : Entries) (n : String)
    (h : hasEntry dst n = true) : hasEntry (mergeEntries dst src) n = true := by
  induction src generalizing dst with
  | nil => simpa [mergeEntries] using h
  | cons e rest ih =>
    rcases e with ⟨m, v⟩
    rw [mergeEntries]
    exact ih _ (hasEntry_setEntry_other dst n m v h)

theorem hasEntry_mergeEntries_of_src (dst src : Entries) (n : String)
    (h : hasEntry src n = true) : hasEntry (mergeEntries dst src) n = true := by
  induction src generalizing dst with
  | nil => simp [hasEntry] at h
  | cons e rest ih =>
    rcases e with ⟨m, v⟩
    by_cases heq : m = n
    · subst heq
      rw [mergeEntries]
      exact mergeEntries_keeps rest _ m (hasEntry_setEntry_self dst m v)
    · simp [hasEntry, heq] at h
      rw [mergeEntries]
      exact ih (setEntry dst m v) h

/-- C10: when init materializes into the invocation directory through
the staging path, the filtered copy runs, and no entry of the exclusion
set (.git, node_modules, .env.local, the tool caches, .DS_Store)
occurs anywhere in the resulting target tree, at any depth, provided
the (empty) target held none beforehand; the direct-clone path taken
for a non-invocation directory instead retains the clone's top-level
.git entry. -/
theorem staged_copy_excludes_metadata (es template : Entries) (force : Bool)
    (hempty : isDirEmptyEntries es = true)
    (hnogit : hasEntry es ".git" = false)
    (hdeep : ∀ n ∈ excludedNames, deepHasEntries n es = false)
    (hgit : hasEntry template ".git" = true) :
    (initProject (some es) true force template).didCopy = true ∧
    (∀ n ∈ excludedNames,
      deepHasEntries n (initProject (some es) true force template).target = false) ∧
    hasEntry (initProject (some es) false force template).target ".git" = true := by
  have hred : initProject (some es) true force template
      = ⟨0, copyDir template es, true, true, [], []⟩ := by
    simp [initProject, Option.getD_some, hempty, hnogit]
  have hred2 : initProject (some es) false force template
      = ⟨0, mergeEntries es template, true, false, [], []⟩ := by
    simp [initProject, Option.getD_some, hempty, hnogit]
  refine ⟨by rw [hred], ?_, ?_⟩
  · intro n hn
    rw [hred]
    exact copyDir_deepHas_false n hn template es (hdeep n hn)
  · rw [hred2]
    exact hasEntry_mergeEntries_of_src es template ".git" hgit

theorem staged_copy_excludes_metadata_witness :
    (initProject (some []) true false
        [(".git", Fs.dir []), ("src", Fs.dir [("m", Fs.file)])]).didCopy = true ∧
    (∀ n ∈ excludedNames, deepHasEntries n (initProject (some []) true false
        [(".git", Fs.dir []), ("src", Fs.dir [("m", Fs.file)])]).target = false) ∧
    hasEntry (initProject (some []) false false
        [(".git", Fs.dir []), ("src", Fs.dir [("m", Fs.file)])]).target ".git" = true :=
  staged_copy_excludes_metadata [] [(".git", Fs.dir []), ("src", Fs.dir [("m", Fs.file)])]
    false (by decide) (by decide) (by intro n hn; simp [deepHasEntries]) (by decide)
